import Mathlib

/-!
Verification of the YouTube Auto Videos Tab content script (src/content.ts).

Addresses (JS strings) are modelled as `List Char`.  The DOM is modelled as a
query oracle `DomQuery` mapping a CSS selector to the element it finds, if any.
Side effects (element clicks, location assignments) are modelled as explicit
effect traces, and the injected scheduler invocation is modelled as the
optional `(delay, callback)` component of the orchestrator's result.
-/

/-- Character-level test for the regex character class `[^/]` applied to a
whole block: every character differs from `'/'`. -/
def noSlash (cs : List Char) : Bool :=
  cs.all (fun c => c ≠ '/')

/-- Matcher for the regex piece `[^/]+` (against the whole of `cs`):
nonempty and slash-free. -/
def idSeg (cs : List Char) : Bool :=
  !cs.isEmpty && noSlash cs

/-- Matcher for the regex alternation
`((@[^/]+)|(c\/[^/]+)|(channel\/[^/]+)|(user\/[^/]+))` against the whole of
`cs` (from content.ts line 14).  Because the alternation is followed by `$`
in the pattern, an alternative matches exactly when `cs` is the literal
marker followed by a nonempty slash-free identifier. -/
def channelTailMatch (cs : List Char) : Bool :=
  (cs.take 1 = "@".toList && idSeg (cs.drop 1)) ||
  (cs.take 2 = "c/".toList && idSeg (cs.drop 2)) ||
  (cs.take 8 = "channel/".toList && idSeg (cs.drop 8)) ||
  (cs.take 5 = "user/".toList && idSeg (cs.drop 5))

/-- Matcher for `youtube\.com\/(...)$` starting at the head of `cs` and
consuming all of `cs` (the `$` anchor): the literal `youtube.com/` followed
by a full match of the alternation. -/
def channelPatternAt (cs : List Char) : Bool :=
  cs.take 12 = "youtube.com/".toList && channelTailMatch (cs.drop 12)

/-- content.ts `isChannelMainPage` (lines 12-16): `channelPattern.test(url)`
with `channelPattern = /youtube\.com\/((@[^/]+)|(c\/[^/]+)|(channel\/[^/]+)|(user\/[^/]+))$/`.
`RegExp.test` succeeds iff the pattern matches starting at some position of
the string; with the trailing `$` the match must extend to the end, so the
test succeeds iff some suffix of the url matches the whole pattern. -/
def isChannelMainPage (url : List Char) : Bool :=
  url.tails.any channelPatternAt

/-- content.ts `isOnVideosTab` (lines 23-25): `url.includes('/videos')`,
a substring test: some suffix of `url` starts with `/videos`. -/
def isOnVideosTab (url : List Char) : Bool :=
  url.tails.any (fun t => t.take 7 = "/videos".toList)

/-- content.ts `getVideosUrl` (lines 56-58): `currentUrl + '/videos'`. -/
def getVideosUrl (currentUrl : List Char) : List Char :=
  currentUrl ++ "/videos".toList

/-- DOM element identity (an anchor element the script may click). -/
structure DomElem where
  eid : Nat
deriving DecidableEq, Repr

/-- Model of `document.querySelector`: maps a CSS selector string to the
element it finds, if any. -/
def DomQuery : Type := String → Option DomElem

/-- content.ts selector list (lines 33-37), in source priority order. -/
def selectors : List String :=
  ["a[href*=\"/videos\"][role=\"tab\"]",
   "yt-tab-shape[tab-title*=\"Videos\"] a",
   "tp-yt-paper-tab a[href*=\"/videos\"]"]

/-- content.ts `clickVideosTab` (lines 31-49): tries the selectors in order
and clicks the first element found.  `some e` models "returned true, having
clicked `e`"; `none` models "returned false, clicked nothing". -/
def clickVideosTab (dom : DomQuery) : Option DomElem :=
  selectors.findSome? dom

/-- Observable side effects of the script on the host page: a synthetic
click of an element, or an assignment to `window.location.href`. -/
inductive Eff where
  | click (e : DomElem)
  | navigate (url : List Char)
deriving DecidableEq, Repr

/-- content.ts `navigateToVideosTab` (lines 64-68): assigns
`getVideosUrl currentUrl` to `window.location.href`. -/
def navigateToVideosTab (currentUrl : List Char) : List Eff :=
  [Eff.navigate (getVideosUrl currentUrl)]

/-- The arrow-function callback passed to `setTimeoutFn` in content.ts
lines 93-99.  It closes over `currentUrl` from the scheduling invocation.
When it later fires it runs against the world at that moment: `dom` is the
then-current DOM and `fireLocation` the page's then-current address; the
body reads only the DOM (it re-attempts the click and otherwise falls back
to `navigateToVideosTab currentUrl`), never `fireLocation`. -/
def retryCallback (currentUrl : List Char) (dom : DomQuery)
    (_fireLocation : List Char) : List Eff :=
  match clickVideosTab dom with
  | some e => [Eff.click e]
  | none => navigateToVideosTab currentUrl

/-- content.ts `switchToVideosTab` (lines 76-101).  The result is the pair
of (immediate effects, scheduler registration): the second component is
`some (delay, callback)` exactly when `setTimeoutFn(callback, delay)` was
invoked (the source invokes it at most once, with delay 500), and `none`
when the scheduler was never invoked. -/
def switchToVideosTab (currentUrl : List Char) (dom : DomQuery) :
    List Eff × Option (Nat × (DomQuery → List Char → List Eff)) :=
  if !isChannelMainPage currentUrl || isOnVideosTab currentUrl then
    ([], none)
  else
    match clickVideosTab dom with
    | some e => ([Eff.click e], none)
    | none => ([], some (500, retryCallback currentUrl))

/-- content.ts `handleUrlChange` (lines 129-136) together with the mutable
`lastUrl` it closes over: given the page's current address and the
last-observed address, returns the new last-observed address and
`some result` when `switchToVideosTab` was invoked (with its result),
`none` when it was not. -/
def handleUrlChange (currentUrl lastUrl : List Char) (dom : DomQuery) :
    List Char × Option (List Eff × Option (Nat × (DomQuery → List Char → List Eff))) :=
  if currentUrl = lastUrl then
    (lastUrl, none)
  else
    (currentUrl, some (switchToVideosTab currentUrl dom))

/-- Modelled from the spec: the spec speaks of an address "belonging to a
non-host domain" (spec sections 1 and 8) without the code defining a domain
extractor; the host site is the one whose channel pages the script targets,
`youtube.com` and its subdomains.  This returns the authority component of
an address: the text after the first `://` up to the next `/`. -/
def addressDomain : List Char → Option (List Char)
  | [] => none
  | c :: cs =>
    if (c :: cs).take 3 = "://".toList then
      some ((c :: cs).drop 3 |>.takeWhile (fun d => d ≠ '/'))
    else
      addressDomain cs

/-- Modelled from the spec: a domain is a host domain when it is
`youtube.com` itself or a subdomain of it. -/
def isHostDomain (d : List Char) : Bool :=
  d = "youtube.com".toList || d.reverse.take 12 = ".youtube.com".toList.reverse

/-- Modelled from the spec: an address "belongs to a non-host domain" when
it has an authority component and that component is not a host domain. -/
def belongsToNonHostDomain (url : List Char) : Bool :=
  match addressDomain url with
  | some d => !isHostDomain d
  | none => false

/-- The four channel path markers of the regex alternation, in source order. -/
def markerList : List (List Char) :=
  ["@".toList, "c/".toList, "channel/".toList, "user/".toList]

/-- Reversal of the host marker core `youtube.com`, used in suffix analyses. -/
def ytcRev : List Char := "moc.ebutuoy".toList

/-- A DOM with no matching tab element for any selector. -/
def emptyDom : DomQuery := fun _ => none

/-- A DOM in which the first (standard) selector finds an anchor element. -/
def tabDom (e : DomElem) : DomQuery :=
  fun s => if s = "a[href*=\"/videos\"][role=\"tab\"]" then some e else none

/-! Helper lemmas on slash-free blocks, prefixes and suffixes. -/

theorem noSlash_cons {c : Char} {cs : List Char} :
    noSlash (c :: cs) = true ↔ c ≠ '/' ∧ noSlash cs = true := by
  simp [noSlash]

theorem noSlash_append {l₁ l₂ : List Char} :
    noSlash (l₁ ++ l₂) = true ↔ noSlash l₁ = true ∧ noSlash l₂ = true := by
  simp [noSlash]

theorem noSlash_rev {l : List Char} : noSlash l.reverse = noSlash l := by
  simp [noSlash]

theorem idSeg_iff {cs : List Char} :
    idSeg cs = true ↔ cs ≠ [] ∧ noSlash cs = true := by
  cases cs <;> simp [idSeg, noSlash]

theorem prefTotal {l₁ l₂ l₃ : List Char} (h₁ : l₁ <+: l₃) (h₂ : l₂ <+: l₃) :
    l₁ <+: l₂ ∨ l₂ <+: l₁ :=
  List.prefix_or_prefix_of_prefix h₁ h₂

theorem sufIffRevPref {l₁ l₂ : List Char} :
    l₁ <:+ l₂ ↔ l₁.reverse <+: l₂.reverse :=
  Iff.symm List.reverse_prefix

theorem slash_split_pref :
    ∀ (a₂ a₁ b₁ b₂ : List Char), noSlash a₁ = true → noSlash a₂ = true →
      (a₁ ++ '/' :: b₁) <+: (a₂ ++ '/' :: b₂) → a₁ = a₂ ∧ b₁ <+: b₂ := by
  intro a₂
  induction a₂ with
  | nil =>
    intro a₁ b₁ b₂ h₁ _ h
    rw [List.nil_append] at h
    cases a₁ with
    | nil =>
      rw [List.nil_append] at h
      exact ⟨rfl, (List.cons_prefix_cons.mp h).2⟩
    | cons c cs =>
      exfalso
      rw [List.cons_append] at h
      obtain ⟨hc, -⟩ := List.cons_prefix_cons.mp h
      exact (noSlash_cons.mp h₁).1 hc
  | cons c₂ cs₂ ih =>
    intro a₁ b₁ b₂ h₁ h₂ h
    rw [List.cons_append] at h
    cases a₁ with
    | nil =>
      exfalso
      rw [List.nil_append] at h
      obtain ⟨hc, -⟩ := List.cons_prefix_cons.mp h
      exact (noSlash_cons.mp h₂).1 hc.symm
    | cons c₁ cs₁ =>
      rw [List.cons_append] at h
      obtain ⟨hc, h'⟩ := List.cons_prefix_cons.mp h
      obtain ⟨heq, hpre⟩ :=
        ih cs₁ b₁ b₂ (noSlash_cons.mp h₁).2 (noSlash_cons.mp h₂).2 h'
      exact ⟨by rw [hc, heq], hpre⟩

/-! Characterization of the channel pattern test. -/

theorem channelTailMatch_iff {cs : List Char} :
    channelTailMatch cs = true ↔
      ∃ m x, m ∈ markerList ∧ x ≠ [] ∧ noSlash x = true ∧ cs = m ++ x := by
  constructor
  · intro h
    simp only [channelTailMatch, Bool.or_eq_true, Bool.and_eq_true,
      decide_eq_true_eq] at h
    rcases h with ((⟨h1, h2⟩ | ⟨h1, h2⟩) | ⟨h1, h2⟩) | ⟨h1, h2⟩
    · obtain ⟨hx1, hx2⟩ := idSeg_iff.mp h2
      refine ⟨"@".toList, cs.drop 1, by simp [markerList], hx1, hx2, ?_⟩
      conv_lhs => rw [← List.take_append_drop 1 cs]
      rw [h1]
    · obtain ⟨hx1, hx2⟩ := idSeg_iff.mp h2
      refine ⟨"c/".toList, cs.drop 2, by simp [markerList], hx1, hx2, ?_⟩
      conv_lhs => rw [← List.take_append_drop 2 cs]
      rw [h1]
    · obtain ⟨hx1, hx2⟩ := idSeg_iff.mp h2
      refine ⟨"channel/".toList, cs.drop 8, by simp [markerList], hx1, hx2, ?_⟩
      conv_lhs => rw [← List.take_append_drop 8 cs]
      rw [h1]
    · obtain ⟨hx1, hx2⟩ := idSeg_iff.mp h2
      refine ⟨"user/".toList, cs.drop 5, by simp [markerList], hx1, hx2, ?_⟩
      conv_lhs => rw [← List.take_append_drop 5 cs]
      rw [h1]
  · rintro ⟨m, x, hm, hx1, hx2, rfl⟩
    have hx : idSeg x = true := idSeg_iff.mpr ⟨hx1, hx2⟩
    have hb : ∀ (w : List Char) (n : Nat), w.length = n →
        (decide ((w ++ x).take n = w) && idSeg ((w ++ x).drop n)) = true := by
      intro w n hn
      rw [List.take_left' hn, List.drop_left' hn]
      simp [hx]
    simp only [markerList, List.mem_cons, List.not_mem_nil, or_false] at hm
    simp only [channelTailMatch, Bool.or_eq_true]
    rcases hm with rfl | rfl | rfl | rfl
    · exact Or.inl (Or.inl (Or.inl (hb "@".toList 1 rfl)))
    · exact Or.inl (Or.inl (Or.inr (hb "c/".toList 2 rfl)))
    · exact Or.inl (Or.inr (hb "channel/".toList 8 rfl))
    · exact Or.inr (hb "user/".toList 5 rfl)

theorem isChannelMainPage_iff {url : List Char} :
    isChannelMainPage url = true ↔
      ∃ m x, m ∈ markerList ∧ x ≠ [] ∧ noSlash x = true ∧
        ("youtube.com/".toList ++ m ++ x) <:+ url := by
  constructor
  · intro h
    simp only [isChannelMainPage, List.any_eq_true] at h
    obtain ⟨t, ht, hat⟩ := h
    rw [List.mem_tails] at ht
    simp only [channelPatternAt, Bool.and_eq_true, decide_eq_true_eq] at hat
    obtain ⟨h12, htail⟩ := hat
    obtain ⟨m, x, hm, hx1, hx2, hcs⟩ := channelTailMatch_iff.mp htail
    refine ⟨m, x, hm, hx1, hx2, ?_⟩
    have hteq : t = "youtube.com/".toList ++ (m ++ x) := by
      conv_lhs => rw [← List.take_append_drop 12 t]
      rw [h12, hcs]
    rw [List.append_assoc]
    exact hteq ▸ ht
  · rintro ⟨m, x, hm, hx1, hx2, hsuf⟩
    simp only [isChannelMainPage, List.any_eq_true]
    refine ⟨"youtube.com/".toList ++ m ++ x, (List.mem_tails _ _).mpr hsuf, ?_⟩
    simp only [channelPatternAt, Bool.and_eq_true, decide_eq_true_eq]
    rw [List.append_assoc]
    refine ⟨List.take_left' rfl, ?_⟩
    rw [List.drop_left' (show ("youtube.com/".toList).length = 12 from rfl)]
    exact channelTailMatch_iff.mpr ⟨m, x, hm, hx1, hx2, rfl⟩

theorem isOnVideosTab_iff {url : List Char} :
    isOnVideosTab url = true ↔ ∃ s t, s ++ "/videos".toList ++ t = url := by
  constructor
  · intro h
    simp only [isOnVideosTab, List.any_eq_true] at h
    obtain ⟨t, ht, htake⟩ := h
    rw [List.mem_tails] at ht
    rw [decide_eq_true_eq] at htake
    obtain ⟨s, hs⟩ := ht
    refine ⟨s, t.drop 7, ?_⟩
    rw [List.append_assoc, ← htake, List.take_append_drop, hs]
  · rintro ⟨s, t, rfl⟩
    simp only [isOnVideosTab, List.any_eq_true]
    refine ⟨"/videos".toList ++ t, (List.mem_tails _ _).mpr ⟨s, (List.append_assoc _ _ _).symm⟩, ?_⟩
    rw [decide_eq_true_eq]
    exact List.take_left' rfl

theorem noSlash_mem {l : List Char} (h : noSlash l = true) {c : Char}
    (hc : c ∈ l) : c ≠ '/' := by
  simp only [noSlash, List.all_eq_true, decide_eq_true_eq] at h
  exact h c hc

/-- Reverse-side view of a successful channel pattern test: the reversed
url begins with the reversal of `youtube.com/<marker><id>` for one of the
four markers, split at the slashes. -/
theorem icmp_rev_view {url : List Char} (h : isChannelMainPage url = true) :
    ∃ x, x ≠ [] ∧ noSlash x = true ∧
      ((x.reverse ++ ['@']) ++ '/' :: ytcRev <+: url.reverse ∨
       x.reverse ++ '/' :: ('c' :: '/' :: ytcRev) <+: url.reverse ∨
       x.reverse ++ '/' :: ("lennahc".toList ++ '/' :: ytcRev) <+: url.reverse ∨
       x.reverse ++ '/' :: ("resu".toList ++ '/' :: ytcRev) <+: url.reverse) := by
  obtain ⟨m, x, hm, hx1, hx2, hsuf⟩ := isChannelMainPage_iff.mp h
  have hpre := sufIffRevPref.mp hsuf
  refine ⟨x, hx1, hx2, ?_⟩
  have hytc : ("youtube.com/".toList).reverse = '/' :: ytcRev := rfl
  simp only [markerList, List.mem_cons, List.not_mem_nil, or_false] at hm
  rcases hm with rfl | rfl | rfl | rfl
  · left
    have hsh : ("youtube.com/".toList ++ "@".toList ++ x).reverse =
        (x.reverse ++ ['@']) ++ '/' :: ytcRev := by
      have h3 : ("@".toList).reverse = ['@'] := rfl
      simp [List.reverse_append, h3, hytc, List.append_assoc, ytcRev]
    rw [hsh] at hpre
    exact hpre
  · right; left
    have hsh : ("youtube.com/".toList ++ "c/".toList ++ x).reverse =
        x.reverse ++ '/' :: ('c' :: '/' :: ytcRev) := by
      have h3 : ("c/".toList).reverse = ['/', 'c'] := rfl
      simp [List.reverse_append, h3, hytc, List.append_assoc, ytcRev]
    rw [hsh] at hpre
    exact hpre
  · right; right; left
    have hsh : ("youtube.com/".toList ++ "channel/".toList ++ x).reverse =
        x.reverse ++ '/' :: ("lennahc".toList ++ '/' :: ytcRev) := by
      have h3 : ("channel/".toList).reverse = '/' :: "lennahc".toList := rfl
      simp [List.reverse_append, h3, hytc, List.append_assoc, ytcRev]
    rw [hsh] at hpre
    exact hpre
  · right; right; right
    have hsh : ("youtube.com/".toList ++ "user/".toList ++ x).reverse =
        x.reverse ++ '/' :: ("resu".toList ++ '/' :: ytcRev) := by
      have h3 : ("user/".toList).reverse = '/' :: "resu".toList := rfl
      simp [List.reverse_append, h3, hytc, List.append_assoc, ytcRev]
    rw [hsh] at hpre
    exact hpre

/-- No address ending in a slash passes the channel pattern test: every
alternative of the pattern ends in `[^/]+$`. -/
theorem icmp_trailing_slash_false (l : List Char) :
    isChannelMainPage (l ++ ['/']) = false := by
  by_contra hcon
  rw [Bool.not_eq_false] at hcon
  obtain ⟨x, hx1, hx2, hcase⟩ := icmp_rev_view hcon
  have hrev : (l ++ ['/']).reverse = '/' :: l.reverse := by simp
  obtain ⟨c, cs, hc⟩ : ∃ c cs, x.reverse = c :: cs := by
    cases hxr : x.reverse with
    | nil => exact absurd (List.reverse_eq_nil_iff.mp hxr) hx1
    | cons c cs => exact ⟨c, cs, rfl⟩
  have hcx : c ≠ '/' := by
    refine noSlash_mem hx2 ?_
    rw [← List.mem_reverse, hc]
    exact List.mem_cons_self c cs
  rcases hcase with hp | hp | hp | hp <;>
    rw [hrev, hc] at hp <;>
    simp only [List.cons_append, List.append_assoc] at hp <;>
    exact hcx (List.cons_prefix_cons.mp hp).1

/-- Appending `/<seg>` (with `seg` slash-free) to any base address `l` can
pass the channel pattern test only in one of four residual ways: the `@`
alternative consumed part of `seg` (forcing `'@' ∈ seg`), or the final
slash-free run matched one of the three slash-carrying alternatives, which
forces `l` to end in `youtube.com/c`, `youtube.com/channel` or
`youtube.com/user` respectively. -/
theorem icmp_append_seg_cases {l seg : List Char} (hs : noSlash seg = true)
    (h : isChannelMainPage (l ++ '/' :: seg) = true) :
    '@' ∈ seg ∨
    ('c' :: '/' :: ytcRev) <+: l.reverse ∨
    ("lennahc".toList ++ '/' :: ytcRev) <+: l.reverse ∨
    ("resu".toList ++ '/' :: ytcRev) <+: l.reverse := by
  obtain ⟨x, hx1, hx2, hcase⟩ := icmp_rev_view h
  have hrev : (l ++ '/' :: seg).reverse = seg.reverse ++ '/' :: l.reverse := by
    simp [List.append_assoc]
  have hsr : noSlash seg.reverse = true := by rw [noSlash_rev]; exact hs
  have hxr : noSlash x.reverse = true := by rw [noSlash_rev]; exact hx2
  rcases hcase with hp | hp | hp | hp
  · left
    rw [hrev] at hp
    have hat : noSlash (x.reverse ++ ['@']) = true :=
      noSlash_append.mpr ⟨hxr, by decide⟩
    obtain ⟨heq, -⟩ := slash_split_pref _ _ _ _ hat hsr hp
    rw [← List.mem_reverse, ← heq]
    simp
  · right; left
    rw [hrev] at hp
    obtain ⟨-, hpre⟩ := slash_split_pref _ _ _ _ hxr hsr hp
    exact hpre
  · right; right; left
    rw [hrev] at hp
    obtain ⟨-, hpre⟩ := slash_split_pref _ _ _ _ hxr hsr hp
    exact hpre
  · right; right; right
    rw [hrev] at hp
    obtain ⟨-, hpre⟩ := slash_split_pref _ _ _ _ hxr hsr hp
    exact hpre

/-- A channel-main-page-shaped address `r ++ youtube.com/ ++ m0 ++ x0`
(marker `m0`, slash-free identifier `x0`) never ends in
`youtube.com/<B>` for a slash-free block `B` free of `'@'` (such as `c`,
`channel` or `user`): the marker character blocks the required shape. -/
theorem no_bad_suffix {B r m0 x0 : List Char} (hB1 : noSlash B = true)
    (hB2 : '@' ∉ B) (hm0 : m0 ∈ markerList) (hx0 : noSlash x0 = true) :
    ¬ ((B ++ '/' :: ytcRev) <+:
        (r ++ "youtube.com/".toList ++ m0 ++ x0).reverse) := by
  intro hp
  have hxr : noSlash x0.reverse = true := by rw [noSlash_rev]; exact hx0
  have hyt : ytcRev = 'm' :: "oc.ebutuoy".toList := rfl
  simp only [markerList, List.mem_cons, List.not_mem_nil, or_false] at hm0
  rcases hm0 with rfl | rfl | rfl | rfl
  · have hrev : (r ++ "youtube.com/".toList ++ "@".toList ++ x0).reverse =
        (x0.reverse ++ ['@']) ++ '/' :: (ytcRev ++ r.reverse) := by
      have h3 : ("@".toList).reverse = ['@'] := rfl
      have h2 : ("youtube.com/".toList).reverse = '/' :: ytcRev := rfl
      simp [List.reverse_append, h3, h2, List.append_assoc, ytcRev]
    rw [hrev] at hp
    have hat : noSlash (x0.reverse ++ ['@']) = true :=
      noSlash_append.mpr ⟨hxr, by decide⟩
    obtain ⟨heq, -⟩ := slash_split_pref _ _ _ _ hB1 hat hp
    exact hB2 (by rw [heq]; simp)
  · have hrev : (r ++ "youtube.com/".toList ++ "c/".toList ++ x0).reverse =
        x0.reverse ++ '/' :: ('c' :: '/' :: (ytcRev ++ r.reverse)) := by
      have h3 : ("c/".toList).reverse = ['/', 'c'] := rfl
      have h2 : ("youtube.com/".toList).reverse = '/' :: ytcRev := rfl
      simp [List.reverse_append, h3, h2, List.append_assoc, ytcRev]
    rw [hrev] at hp
    obtain ⟨-, hpre⟩ := slash_split_pref _ _ _ _ hB1 hxr hp
    rw [hyt] at hpre
    exact absurd (List.cons_prefix_cons.mp hpre).1 (by decide)
  · have hrev :
        (r ++ "youtube.com/".toList ++ "channel/".toList ++ x0).reverse =
        x0.reverse ++ '/' ::
          ("lennahc".toList ++ '/' :: (ytcRev ++ r.reverse)) := by
      have h3 : ("channel/".toList).reverse = '/' :: "lennahc".toList := rfl
      have h2 : ("youtube.com/".toList).reverse = '/' :: ytcRev := rfl
      simp [List.reverse_append, h3, h2, List.append_assoc, ytcRev]
    rw [hrev] at hp
    obtain ⟨-, hpre⟩ := slash_split_pref _ _ _ _ hB1 hxr hp
    rw [hyt] at hpre
    exact absurd (List.cons_prefix_cons.mp hpre).1 (by decide)
  · have hrev : (r ++ "youtube.com/".toList ++ "user/".toList ++ x0).reverse =
        x0.reverse ++ '/' ::
          ("resu".toList ++ '/' :: (ytcRev ++ r.reverse)) := by
      have h3 : ("user/".toList).reverse = '/' :: "resu".toList := rfl
      have h2 : ("youtube.com/".toList).reverse = '/' :: ytcRev := rfl
      simp [List.reverse_append, h3, h2, List.append_assoc, ytcRev]
    rw [hrev] at hp
    obtain ⟨-, hpre⟩ := slash_split_pref _ _ _ _ hB1 hxr hp
    rw [hyt] at hpre
    exact absurd (List.cons_prefix_cons.mp hpre).1 (by decide)

/-- An address that already passes the channel pattern test never ends in
`youtube.com/<B>` for a slash-free `B` free of `'@'` (such as `c`,
`channel` or `user`): comparing the two suffix shapes of the address forces
a marker-character clash. -/
theorem icmp_not_bad {url B : List Char} (h : isChannelMainPage url = true)
    (hB1 : noSlash B = true) (hB2 : '@' ∉ B) :
    ¬ ((B ++ '/' :: ytcRev) <+: url.reverse) := by
  intro hbad
  obtain ⟨x, hx1, hx2, hcase⟩ := icmp_rev_view h
  have hxr : noSlash x.reverse = true := by rw [noSlash_rev]; exact hx2
  have hat : noSlash (x.reverse ++ ['@']) = true :=
    noSlash_append.mpr ⟨hxr, by decide⟩
  have hyt : ytcRev = 'm' :: "oc.ebutuoy".toList := rfl
  rcases hcase with hp | hp | hp | hp
  · rcases prefTotal hbad hp with hq | hq
    · obtain ⟨heq, -⟩ := slash_split_pref _ _ _ _ hB1 hat hq
      exact hB2 (by rw [heq]; simp)
    · obtain ⟨heq, -⟩ := slash_split_pref _ _ _ _ hat hB1 hq
      exact hB2 (by rw [← heq]; simp)
  · rcases prefTotal hbad hp with hq | hq
    · obtain ⟨-, hpre⟩ := slash_split_pref _ _ _ _ hB1 hxr hq
      rw [hyt] at hpre
      exact absurd (List.cons_prefix_cons.mp hpre).1 (by decide)
    · obtain ⟨-, hpre⟩ := slash_split_pref _ _ _ _ hxr hB1 hq
      have hlen := hpre.length_le
      rw [show ('c' :: '/' :: ytcRev).length = 13 from rfl,
        show ytcRev.length = 11 from rfl] at hlen
      omega
  · rcases prefTotal hbad hp with hq | hq
    · obtain ⟨-, hpre⟩ := slash_split_pref _ _ _ _ hB1 hxr hq
      rw [hyt] at hpre
      have : "lennahc".toList = 'l' :: "ennahc".toList := rfl
      rw [this] at hpre
      exact absurd (List.cons_prefix_cons.mp hpre).1 (by decide)
    · obtain ⟨-, hpre⟩ := slash_split_pref _ _ _ _ hxr hB1 hq
      have hlen := hpre.length_le
      rw [show ("lennahc".toList ++ '/' :: ytcRev).length = 19 from rfl,
        show ytcRev.length = 11 from rfl] at hlen
      omega
  · rcases prefTotal hbad hp with hq | hq
    · obtain ⟨-, hpre⟩ := slash_split_pref _ _ _ _ hB1 hxr hq
      rw [hyt] at hpre
      have : "resu".toList = 'r' :: "esu".toList := rfl
      rw [this] at hpre
      exact absurd (List.cons_prefix_cons.mp hpre).1 (by decide)
    · obtain ⟨-, hpre⟩ := slash_split_pref _ _ _ _ hxr hB1 hq
      have hlen := hpre.length_le
      rw [show ("resu".toList ++ '/' :: ytcRev).length = 16 from rfl,
        show ytcRev.length = 11 from rfl] at hlen
      omega

/-! Claim theorems. -/

/-- C1 (amended): for every address for which `isChannelMainPage` is false
or which already contains `/videos` (`isOnVideosTab` true),
`switchToVideosTab` takes no action: no click, no navigation, and the
injected scheduler is never invoked. -/
theorem C1_ineligible_no_action (url : List Char) (dom : DomQuery)
    (h : isChannelMainPage url = false ∨ isOnVideosTab url = true) :
    switchToVideosTab url dom = ([], none) := by
  rcases h with h | h <;> simp [switchToVideosTab, h]

theorem C1_ineligible_no_action_witness :
    isOnVideosTab "https://www.youtube.com/@mkbhd/videos".toList = true ∧
    switchToVideosTab "https://www.youtube.com/@mkbhd/videos".toList
      emptyDom = ([], none) :=
  ⟨by decide, C1_ineligible_no_action _ _ (Or.inr (by decide))⟩

/-- C1 counterexample: the claim asserts that every address belonging to a
non-host domain makes `switchToVideosTab` take no action, but the channel
pattern is not anchored to the address's domain: for
`https://evilyoutube.com/@x`, whose domain `evilyoutube.com` is not the
host, the classifier matches the embedded `youtube.com/@x` text and
`switchToVideosTab` invokes the scheduler. -/
theorem C1_counterexample :
    belongsToNonHostDomain "https://evilyoutube.com/@x".toList = true ∧
    isChannelMainPage "https://evilyoutube.com/@x".toList = true ∧
    (switchToVideosTab "https://evilyoutube.com/@x".toList emptyDom).2 =
      some (500, retryCallback "https://evilyoutube.com/@x".toList) := by
  refine ⟨by decide, by decide, ?_⟩
  rfl

/-- C2: for every eligible address with no tab element found at invocation
time, `switchToVideosTab` performs no immediate effect and invokes the
scheduler exactly once, with delay 500 and the retry callback for that
address; firing the callback in a world still without a tab element
navigates the location to the address with `/videos` appended, while
firing it in a world where a tab element has appeared clicks that element
and performs no navigation (the location is left unchanged). -/
theorem C2_schedule_retry (url : List Char) (dom : DomQuery)
    (h1 : isChannelMainPage url = true) (h2 : isOnVideosTab url = false)
    (h3 : clickVideosTab dom = none) :
    switchToVideosTab url dom = ([], some (500, retryCallback url)) ∧
    (∀ dom2 fireLoc, clickVideosTab dom2 = none →
      retryCallback url dom2 fireLoc =
        [Eff.navigate (url ++ "/videos".toList)]) ∧
    (∀ dom2 fireLoc e, clickVideosTab dom2 = some e →
      retryCallback url dom2 fireLoc = [Eff.click e]) := by
  refine ⟨?_, ?_, ?_⟩
  · simp [switchToVideosTab, h1, h2, h3]
  · intro dom2 fireLoc hd
    simp [retryCallback, hd, navigateToVideosTab, getVideosUrl]
  · intro dom2 fireLoc e hd
    simp [retryCallback, hd]

theorem C2_schedule_retry_witness :
    isChannelMainPage "https://www.youtube.com/@mkbhd".toList = true ∧
    isOnVideosTab "https://www.youtube.com/@mkbhd".toList = false ∧
    clickVideosTab emptyDom = none ∧
    switchToVideosTab "https://www.youtube.com/@mkbhd".toList emptyDom =
      ([], some (500, retryCallback "https://www.youtube.com/@mkbhd".toList)) :=
  ⟨by decide, by decide, rfl,
    (C2_schedule_retry _ emptyDom (by decide) (by decide) rfl).1⟩

/-- C3: every address of the shape `<root>/@handle`, `<root>/c/<name>`,
`<root>/channel/<id>` or `<root>/user/<name>` with no further path segment
after the identifier satisfies `isChannelMainPage`; `<root>` is an address
root ending in the host marker `youtube.com` (modelled as an arbitrary
prefix `r` followed by `youtube.com/`), and the identifier is a nonempty
slash-free segment. -/
theorem C3_channel_shapes (r m x : List Char) (hm : m ∈ markerList)
    (hx1 : x ≠ []) (hx2 : noSlash x = true) :
    isChannelMainPage (r ++ "youtube.com/".toList ++ m ++ x) = true :=
  isChannelMainPage_iff.mpr ⟨m, x, hm, hx1, hx2, r, by simp [List.append_assoc]⟩

theorem C3_channel_shapes_witness :
    isChannelMainPage ("https://www.".toList ++ "youtube.com/".toList ++
      "@".toList ++ "mkbhd".toList) = true :=
  C3_channel_shapes _ _ _ (by decide) (by decide) (by decide)

/-- C4: every channel-main-page-shaped address (as in C3) with an appended
sub-path segment `/videos`, `/about`, `/community` or `/playlists`, or with
a single trailing slash after the identifier, fails `isChannelMainPage`. -/
theorem C4_subpage_not_main (r m x seg : List Char) (hm : m ∈ markerList)
    (hx1 : x ≠ []) (hx2 : noSlash x = true)
    (hseg : seg = "videos".toList ∨ seg = "about".toList ∨
      seg = "community".toList ∨ seg = "playlists".toList) :
    isChannelMainPage
      (r ++ "youtube.com/".toList ++ m ++ x ++ '/' :: seg) = false ∧
    isChannelMainPage
      (r ++ "youtube.com/".toList ++ m ++ x ++ ['/']) = false := by
  constructor
  · by_contra hcon
    rw [Bool.not_eq_false] at hcon
    have hs : noSlash seg = true := by
      rcases hseg with rfl | rfl | rfl | rfl <;> decide
    have hat : '@' ∉ seg := by
      rcases hseg with rfl | rfl | rfl | rfl <;> decide
    rcases icmp_append_seg_cases hs hcon with hbad | hbad | hbad | hbad
    · exact hat hbad
    · exact @no_bad_suffix ['c'] r m x (by decide) (by decide) hm hx2 hbad
    · exact no_bad_suffix (by decide) (by decide) hm hx2 hbad
    · exact no_bad_suffix (by decide) (by decide) hm hx2 hbad
  · exact icmp_trailing_slash_false _

theorem C4_subpage_not_main_witness :
    isChannelMainPage ("https://www.".toList ++ "youtube.com/".toList ++
      "@".toList ++ "mkbhd".toList ++ '/' :: "videos".toList) = false ∧
    isChannelMainPage ("https://www.".toList ++ "youtube.com/".toList ++
      "@".toList ++ "mkbhd".toList ++ ['/']) = false :=
  C4_subpage_not_main _ _ _ _ (by decide) (by decide) (by decide) (Or.inl rfl)

/-- C5: `isOnVideosTab` holds exactly for the addresses containing the
literal `/videos` as a substring anywhere. -/
theorem C5_videos_substring (url : List Char) :
    isOnVideosTab url = true ↔ ∃ s t, s ++ "/videos".toList ++ t = url :=
  isOnVideosTab_iff

/-- C6: for every eligible channel main page address whose DOM query finds
a Videos tab element, `switchToVideosTab` clicks exactly that element,
exactly once, and never invokes the scheduler. -/
theorem C6_immediate_click (url : List Char) (dom : DomQuery) (e : DomElem)
    (h1 : isChannelMainPage url = true) (h2 : isOnVideosTab url = false)
    (h3 : clickVideosTab dom = some e) :
    switchToVideosTab url dom = ([Eff.click e], none) := by
  simp [switchToVideosTab, h1, h2, h3]

theorem C6_immediate_click_witness :
    isChannelMainPage "https://www.youtube.com/@mkbhd".toList = true ∧
    clickVideosTab (tabDom ⟨0⟩) = some ⟨0⟩ ∧
    switchToVideosTab "https://www.youtube.com/@mkbhd".toList (tabDom ⟨0⟩) =
      ([Eff.click ⟨0⟩], none) :=
  ⟨by decide, rfl, C6_immediate_click _ _ _ (by decide) (by decide) rfl⟩

/-- C7: `getVideosUrl` is the pure append of `/videos` to its argument,
with no validation of the address shape; in particular it maps
`https://host/@x` to exactly `https://host/@x/videos`. -/
theorem C7_getVideosUrl_pure_append :
    (∀ url : List Char, getVideosUrl url = url ++ "/videos".toList) ∧
    getVideosUrl "https://host/@x".toList = "https://host/@x/videos".toList :=
  ⟨fun _ => rfl, by decide⟩

/-- C8: the scheduled retry re-checks neither `isChannelMainPage` nor
`isOnVideosTab`: when the second click attempt fails, the fallback always
navigates to `getVideosUrl` of the address captured when the retry was
scheduled, whatever address `fireLoc` the page shows when the callback
fires; in particular, when the location has changed to an address with a
different videos url, the navigation target is still derived from the
captured address, not the current one. -/
theorem C8_stale_address_fallback (url fireLoc : List Char)
    (dom dom2 : DomQuery)
    (h1 : isChannelMainPage url = true) (h2 : isOnVideosTab url = false)
    (h3 : clickVideosTab dom = none) (h4 : clickVideosTab dom2 = none) :
    (switchToVideosTab url dom).2 = some (500, retryCallback url) ∧
    retryCallback url dom2 fireLoc = [Eff.navigate (getVideosUrl url)] ∧
    (getVideosUrl fireLoc ≠ getVideosUrl url →
      retryCallback url dom2 fireLoc ≠
        [Eff.navigate (getVideosUrl fireLoc)]) := by
  refine ⟨?_, ?_, ?_⟩
  · simp [switchToVideosTab, h1, h2, h3]
  · simp [retryCallback, h4, navigateToVideosTab]
  · intro hne heq2
    have hlists : [Eff.navigate (getVideosUrl url)] =
        [Eff.navigate (getVideosUrl fireLoc)] := by
      rw [← heq2]
      simp [retryCallback, h4, navigateToVideosTab]
    simp only [List.cons.injEq, Eff.navigate.injEq, and_true] at hlists
    exact hne hlists.symm

theorem C8_stale_address_fallback_witness :
    retryCallback "https://www.youtube.com/@mkbhd".toList emptyDom
        "https://www.youtube.com/@veritasium".toList =
      [Eff.navigate (getVideosUrl "https://www.youtube.com/@mkbhd".toList)] :=
  (C8_stale_address_fallback "https://www.youtube.com/@mkbhd".toList
    "https://www.youtube.com/@veritasium".toList emptyDom emptyDom
    (by decide) (by decide) rfl rfl).2.1

/-- C9: the change observer preserves the invariant that the last-observed
address is the most recently acted-upon one: on a notification with an
unchanged address it does nothing (state unchanged, no re-trigger), and on
a changed address the stored address becomes the current one and
`switchToVideosTab` is invoked with exactly that address. -/
theorem C9_observer_invariant (currentUrl lastUrl : List Char)
    (dom : DomQuery) :
    (currentUrl = lastUrl →
      handleUrlChange currentUrl lastUrl dom = (lastUrl, none)) ∧
    (currentUrl ≠ lastUrl →
      handleUrlChange currentUrl lastUrl dom =
        (currentUrl, some (switchToVideosTab currentUrl dom))) := by
  constructor
  · intro h
    simp [handleUrlChange, h]
  · intro h
    simp [handleUrlChange, h]

theorem C9_observer_invariant_witness :
    handleUrlChange "https://www.youtube.com/@a".toList
        "https://www.youtube.com/@b".toList emptyDom =
      ("https://www.youtube.com/@a".toList,
        some (switchToVideosTab "https://www.youtube.com/@a".toList
          emptyDom)) :=
  (C9_observer_invariant _ _ _).2 (by decide)

/-- C10: for every address, appending `/videos` yields an address on the
videos tab, and for a channel main page the appended address is no longer
classified as a channel main page; consequently `switchToVideosTab`
applied to the rewritten address takes no action, so the address rewrite
never re-triggers itself. -/
theorem C10_no_redirect_loop (url : List Char) (dom : DomQuery) :
    isOnVideosTab (getVideosUrl url) = true ∧
    (isChannelMainPage url = true →
      isChannelMainPage (getVideosUrl url) = false) ∧
    switchToVideosTab (getVideosUrl url) dom = ([], none) := by
  have h1 : isOnVideosTab (getVideosUrl url) = true := by
    refine isOnVideosTab_iff.mpr ⟨url, [], ?_⟩
    simp [getVideosUrl]
  refine ⟨h1, ?_, ?_⟩
  · intro hmain
    by_contra hcon
    rw [Bool.not_eq_false] at hcon
    have hsplit : getVideosUrl url = url ++ '/' :: "videos".toList := rfl
    rw [hsplit] at hcon
    rcases icmp_append_seg_cases (by decide) hcon with hbad | hbad | hbad | hbad
    · exact absurd hbad (by decide)
    · exact @icmp_not_bad url ['c'] hmain (by decide) (by decide) hbad
    · exact icmp_not_bad hmain (by decide) (by decide) hbad
    · exact icmp_not_bad hmain (by decide) (by decide) hbad
  · simp [switchToVideosTab, h1]

theorem C10_no_redirect_loop_witness :
    isChannelMainPage "https://www.youtube.com/@mkbhd".toList = true ∧
    isChannelMainPage
      (getVideosUrl "https://www.youtube.com/@mkbhd".toList) = false ∧
    switchToVideosTab (getVideosUrl "https://www.youtube.com/@mkbhd".toList)
      emptyDom = ([], none) :=
  ⟨by decide, (C10_no_redirect_loop _ emptyDom).2.1 (by decide),
    (C10_no_redirect_loop _ emptyDom).2.2⟩
